import Mathlib

/-!
Verification of the ingestion and normalization pipeline of `src/app2.py`
(a single-file budget dashboard).  The Python code is shallowly embedded:

* a pandas `DataFrame` cell is `Option String` (`none` is pandas `NaN`;
  `pandas.read_csv` maps empty fields to `NaN`, so an embedded cell is
  either absent or a nonempty string);
* `pd.to_datetime(..., errors="coerce")` is modelled by `parseDate`,
  restricted to ISO `YYYY-MM-DD` input with real calendar validation,
  returning `none` for the `NaT` marker;
* `pd.to_numeric(..., errors="coerce")` after the comma strip is modelled
  by `parseAmount`, restricted to signed decimal literals, returning
  `none` for the `NaN` marker.  Numeric cells are exact fixed-point
  decimals `Dec` (integer mantissa with a power-of-ten shift); their
  rational value is `Dec.toRat`.  This idealizes the float arithmetic of
  the source as exact decimal arithmetic;
* pandas reductions with `skipna` semantics (`sum`, `mean`, `max`) are
  folds over the valid (non-`none`) sub-list; an all-`NaN` result
  (`NaN` mean/max) is `none`;
* `groupby(...).sum()` is: sorted deduplicated keys, each paired with the
  sum over the rows carrying that key.
-/

namespace App2

/-- A calendar date, ordered lexicographically by year, month, day
(the order on pandas timestamps restricted to dates). -/
structure Date where
  year : Nat
  month : Nat
  day : Nat
deriving DecidableEq, Repr

/-- Boolean date comparison: `a` is on or before `b`. -/
def dle (a b : Date) : Bool :=
  decide (a.year < b.year) ||
    (decide (a.year = b.year) &&
      (decide (a.month < b.month) ||
        (decide (a.month = b.month) && decide (a.day ≤ b.day))))

/-- The earlier of two dates (left-biased), as used by `Series.min`. -/
def dmin (a b : Date) : Date := if dle a b then a else b

/-- The later of two dates (left-biased), as used by `Series.max`. -/
def dmax (a b : Date) : Date := if dle a b then b else a

/-- Is the character a decimal digit? -/
def isDigit (c : Char) : Bool := decide (48 ≤ c.toNat) && decide (c.toNat ≤ 57)

/-- Are all characters decimal digits? -/
def allDigits (l : List Char) : Bool := l.all isDigit

/-- The natural number denoted by a list of digit characters
(most significant first); non-digit characters contribute `0`. -/
def natOfChars (l : List Char) : Nat :=
  l.foldl (fun a c => 10 * a + (c.toNat - 48)) 0

/-- Split a character list on a separator character.  Mirrors the string
splitting that underlies delimited-text parsing: `n` separators yield
`n + 1` (possibly empty) fields. -/
def splitSep (c : Char) : List Char → List (List Char)
  | [] => [[]]
  | a :: rest =>
    if a = c then [] :: splitSep c rest
    else
      match splitSep c rest with
      | [] => [[a]]
      | g :: gs => (a :: g) :: gs

/-- Join character lists with a separator character (inverse of
`splitSep` on separator-free fields). -/
def joinSep (c : Char) : List (List Char) → List Char
  | [] => []
  | [x] => x
  | x :: xs => x ++ c :: joinSep c xs

/-- Is the year a Gregorian leap year? -/
def isLeap (y : Nat) : Bool :=
  decide (y % 4 = 0) && (decide (y % 100 ≠ 0) || decide (y % 400 = 0))

/-- Days in a month of a given year. -/
def daysInMonth (y m : Nat) : Nat :=
  if m = 2 then (if isLeap y then 29 else 28)
  else if m = 4 ∨ m = 6 ∨ m = 9 ∨ m = 11 then 30
  else 31

/-- Model of `pd.to_datetime(cell, errors="coerce")` restricted to ISO
`YYYY-MM-DD` text: three dash-separated digit groups forming a real
calendar date; anything else is the `NaT` marker `none`. -/
def parseDate (s : String) : Option Date :=
  match splitSep '-' s.data with
  | [y, m, d] =>
    if y ≠ [] ∧ m ≠ [] ∧ d ≠ [] ∧ allDigits y ∧ allDigits m ∧ allDigits d then
      let yn := natOfChars y
      let mn := natOfChars m
      let dn := natOfChars d
      if 1 ≤ mn ∧ mn ≤ 12 ∧ 1 ≤ dn ∧ dn ≤ daysInMonth yn mn then
        some ⟨yn, mn, dn⟩
      else none
    else none
  | _ => none

/-- An exact fixed-point decimal: the value `num / 10 ^ shift`.  Embeds
the float amounts of the source as exact decimals. -/
structure Dec where
  num : Int
  shift : Nat
deriving DecidableEq, Repr

/-- The decimal with integer value `n`. -/
def Dec.ofInt (n : Int) : Dec := ⟨n, 0⟩

/-- The rational value denoted by a fixed-point decimal. -/
def Dec.toRat (d : Dec) : ℚ := (d.num : ℚ) / 10 ^ d.shift

/-- Exact addition of fixed-point decimals (aligns the shifts). -/
def Dec.add (a b : Dec) : Dec :=
  let u := max a.shift b.shift
  ⟨a.num * 10 ^ (u - a.shift) + b.num * 10 ^ (u - b.shift), u⟩

/-- Boolean value comparison of fixed-point decimals. -/
def Dec.ble (a b : Dec) : Bool :=
  decide (a.num * 10 ^ b.shift ≤ b.num * 10 ^ a.shift)

/-- The larger of two decimals by value (right-biased on ties), as used
by `Series.max`. -/
def Dec.maxD (a b : Dec) : Dec := if Dec.ble a b then b else a

/-- Sum of a list of decimals, `0` for the empty list — the `skipna`
`Series.sum` over the valid entries. -/
def sumDec (l : List Dec) : Dec := l.foldl Dec.add ⟨0, 0⟩

/-- Model of the unsigned part of `pd.to_numeric(..., errors="coerce")`
on comma-stripped text: digits with at most one decimal point (at least
one digit somewhere). -/
def parseUDec (cs : List Char) : Option Dec :=
  match splitSep '.' cs with
  | [ip] =>
    if ip ≠ [] ∧ allDigits ip then some ⟨natOfChars ip, 0⟩ else none
  | [ip, fp] =>
    if (ip ≠ [] ∨ fp ≠ []) ∧ allDigits ip ∧ allDigits fp then
      some ⟨natOfChars ip * 10 ^ fp.length + natOfChars fp, fp.length⟩
    else none
  | _ => none

/-- Model of line 109 of the source: strip every comma from the textual
form, then coerce to a number, unparseable text becoming the `NaN`
marker `none`.  Restricted to optionally signed decimal literals. -/
def parseAmount (s : String) : Option Dec :=
  let cs := s.data.filter (fun c => decide (c ≠ ','))
  match cs with
  | '-' :: rest => (parseUDec rest).map (fun d => ⟨-d.num, d.shift⟩)
  | '+' :: rest => parseUDec rest
  | _ => parseUDec cs

/-- The decoded upload: an ordered column list and rows of cells aligned
with it.  A cell is `none` for pandas `NaN` (absent or empty in the
file), otherwise the raw text. -/
structure Table where
  cols : List String
  rows : List (List (Option String))
deriving DecidableEq, Repr

/-- `df.empty`: no rows or no columns (line 91 of the source). -/
def Table.isEmptyTable (t : Table) : Bool :=
  decide (t.rows = []) || decide (t.cols = [])

/-- The cell of a row under a column name: position of the name in the
column list, `none` when the name is absent or the row is short. -/
def getCell (cols : List String) (name : String) (row : List (Option String)) :
    Option String :=
  match cols.indexOf? name with
  | none => none
  | some i => row.getD i none

/-- A normalized row: the original record together with the three
derived fields `_date`, `_amount`, `_category` of lines 108–114. -/
structure NRow where
  orig : List (Option String)
  date : Option Date
  amount : Option Dec
  category : String
deriving DecidableEq, Repr

/-- Lines 108–114 of the source, for one record: coerce the chosen date
and amount columns (failures become `none` markers in place) and derive
the category with the `"(none)"` sentinel and `fillna("Uncategorized")`. -/
def normRow (cols : List String) (dateCol amtCol catCol : String)
    (row : List (Option String)) : NRow :=
  { orig := row
    date := (getCell cols dateCol row).bind parseDate
    amount := (getCell cols amtCol row).bind parseAmount
    category :=
      if catCol = "(none)" then "Uncategorized"
      else (getCell cols catCol row).getD "Uncategorized" }

/-- The FieldMapper: lines 108–114 applied to every row of the table. -/
def normalize (t : Table) (dateCol amtCol catCol : String) : List NRow :=
  t.rows.map (normRow t.cols dateCol amtCol catCol)

/-- The filter inputs: the two endpoints of the date range and the
selected categories. -/
structure FilterSpec where
  start : Date
  stop : Date
  cats : List String
deriving Repr

/-- Line 135: `filtered["_date"].between(start, end)` — `False` on
`NaT`, inclusive on both ends. -/
def dateKeep (sp : FilterSpec) (r : NRow) : Bool :=
  match r.date with
  | none => false
  | some d => dle sp.start d && dle d sp.stop

/-- Line 136: `filtered["_category"].isin(categories)`. -/
def catKeep (sp : FilterSpec) (r : NRow) : Bool :=
  decide (r.category ∈ sp.cats)

/-- The Filterer, lines 134–136: the date-interval mask then the
category mask. -/
def filterRows (sp : FilterSpec) (rows : List NRow) : List NRow :=
  (rows.filter (dateKeep sp)).filter (catKeep sp)

/-- The valid (non-`NaN`) amounts of a row list, in order. -/
def validAmts (rows : List NRow) : List Dec :=
  rows.filterMap (fun r => r.amount)

/-- Line 143: `filtered["_amount"].sum()` — `skipna` sum, `0.0` when no
amount is valid. -/
def totalAmt (rows : List NRow) : Dec := sumDec (validAmts rows)

/-- Line 144: `filtered["_amount"].mean()` — sum over count of the
valid amounts; the all-`NaN` mean `NaN` is `none`. -/
def avgAmt (rows : List NRow) : Option ℚ :=
  if validAmts rows = [] then none
  else some ((sumDec (validAmts rows)).toRat / (validAmts rows).length)

/-- Line 145: `filtered["_amount"].max()` — max of the valid amounts;
the all-`NaN` max `NaN` is `none`. -/
def maxAmt (rows : List NRow) : Option Dec :=
  match validAmts rows with
  | [] => none
  | a :: as => some (as.foldl Dec.maxD a)

/-- Line 146: `len(filtered)`. -/
def txCount (rows : List NRow) : Nat := rows.length

/-- Lexicographic byte comparison of strings, the sort order of pandas
`groupby` keys. -/
def lexLe : List Char → List Char → Bool
  | [], _ => true
  | _ :: _, [] => false
  | a :: as, b :: bs =>
    if a.toNat < b.toNat then true
    else if b.toNat < a.toNat then false
    else lexLe as bs

/-- String order used to sort grouping keys. -/
def strProp (a b : String) : Prop := lexLe a.data b.data = true

instance : DecidableRel strProp := fun a b =>
  inferInstanceAs (Decidable (lexLe a.data b.data = true))

/-- The distinct values of `key` over the rows, sorted ascending — the
index of a pandas `groupby`. -/
def groupKeys (key : NRow → String) (rows : List NRow) : List String :=
  ((rows.map key).dedup).insertionSort strProp

/-- `groupby(key)["_amount"].sum()`: each distinct key, sorted, paired
with the `skipna` sum of the amounts of its rows (`0` for an all-`NaN`
group). -/
def groupSum (key : NRow → String) (rows : List NRow) : List (String × Dec) :=
  (groupKeys key rows).map
    (fun k => (k, sumDec (validAmts (rows.filter (fun r => decide (key r = k))))))

/-- Line 187: the category grouping `cat_sum`. -/
def catSum (rows : List NRow) : List (String × Dec) :=
  groupSum (fun r => r.category) rows

/-- Left-pad a decimal numeral of `n` with `'0'` to width `w`. -/
def padNat (w n : Nat) : List Char :=
  let s := Nat.toDigits 10 n
  List.replicate (w - s.length) '0' ++ s

/-- Line 193: `_date.dt.to_period("M").astype(str)` — the `"YYYY-MM"`
text of the month, the literal `"NaT"` for an invalid date. -/
def yearMonth (od : Option Date) : String :=
  match od with
  | none => "NaT"
  | some d => String.mk (padNat 4 d.year ++ '-' :: padNat 2 d.month)

/-- Lines 193–194: the monthly grouping `trend`. -/
def trendOf (rows : List NRow) : List (String × Dec) :=
  groupSum (fun r => yearMonth r.date) rows

/-- Lines 117–122: the default interval offered to the range picker —
min through max of the valid dates, or January 1st of the current year
through today when no date is valid. -/
def defaultRange (dates : List (Option Date)) (today : Date) : Date × Date :=
  match dates.filterMap id with
  | [] => (⟨today.year, 1, 1⟩, today)
  | d :: ds => (ds.foldl dmin d, ds.foldl dmax d)

/-- A raw cell as `to_csv` writes it: `NaN` becomes the empty field. -/
def cellStr (c : Option String) : String := c.getD ""

/-- A `_date` cell as `to_csv` writes it (`NaT` becomes empty). -/
def dateStr (od : Option Date) : String :=
  match od with
  | none => ""
  | some d =>
    String.mk (padNat 4 d.year ++ '-' :: (padNat 2 d.month ++ '-' :: padNat 2 d.day))

/-- A `_amount` cell as `to_csv` writes it (`NaN` becomes empty); the
decimal rendering of the exact value (number formatting abstracted). -/
def amtStr (oa : Option Dec) : String :=
  match oa with
  | none => ""
  | some d =>
    let ds := Nat.toDigits 10 d.num.natAbs
    let padded := List.replicate (d.shift + 1 - ds.length) '0' ++ ds
    let k := padded.length - d.shift
    String.mk ((if d.num < 0 then ['-'] else []) ++ padded.take k ++
      (if d.shift = 0 then [] else '.' :: padded.drop k))

/-- Lines 193 and 204: the grid of fields written by
`filtered.to_csv(index=False)` — a header of the original columns plus
the four derived columns (the `year_month` column added at line 193 is
part of the exported frame), then one line per filtered row. -/
def exportGrid (cols : List String) (rows : List NRow) : List (List String) :=
  (cols ++ ["_date", "_amount", "_category", "year_month"]) ::
    rows.map (fun r =>
      r.orig.map cellStr ++
        [dateStr r.date, amtStr r.amount, r.category, yearMonth r.date])

/-- Render a field grid as delimited text: comma-joined fields,
newline-joined lines (quoting not modelled; the round-trip theorem
assumes delimiter-free fields). -/
def csvRender (g : List (List String)) : String :=
  String.mk (joinSep '\n' (g.map (fun line => joinSep ',' (line.map String.data))))

/-- Re-parse delimited text into its field grid, as a re-decode of the
download would. -/
def csvParse (s : String) : List (List String) :=
  (splitSep '\n' s.data).map (fun l => (splitSep ',' l).map String.mk)

/-- Lines 74–83: `safe_read` — try the candidate decoders in order
(platform-default parse, then UTF-8-with-signature, then Latin-1),
returning the first success; each attempt is a parser that may fail. -/
def safe_read (p1 p2 p3 : List Nat → Option Table) (b : List Nat) : Option Table :=
  match p1 b with
  | some t => some t
  | none =>
    match p2 b with
    | some t => some t
    | none => p3 b

/-- The terminal conditions of the script (`st.stop()` sites). -/
inductive PipeErr where
  | emptyTable
  | invalidDateRange
  | emptyFilter
deriving DecidableEq, Repr

/-- Everything the dashboard derives from the filtered rows. -/
structure Summary where
  total : Dec
  avg : Option ℚ
  maxA : Option Dec
  count : Nat
  cats : List (String × Dec)
  trend : List (String × Dec)
  csv : List (List String)

/-- Lines 89–205 of the source as one function from the decoded table
and the interactive inputs (column choices, date-range widget value,
category selection) to either a terminal condition or the derived
outputs.  Each `st.stop()` becomes an error constructor, so a terminal
condition excludes every later computation. -/
def pipeline (t : Table) (dateCol amtCol catCol : String)
    (dateRange : List Date) (cats : List String) : Except PipeErr Summary :=
  if t.isEmptyTable then .error .emptyTable
  else
    let rows := normalize t dateCol amtCol catCol
    match dateRange with
    | [start, stop] =>
      let filtered := filterRows ⟨start, stop, cats⟩ rows
      if filtered = [] then .error .emptyFilter
      else
        .ok
          { total := totalAmt filtered
            avg := avgAmt filtered
            maxA := maxAmt filtered
            count := txCount filtered
            cats := catSum filtered
            trend := trendOf filtered
            csv := exportGrid t.cols filtered }
    | _ => .error .invalidDateRange

/-- Every textual cell of the table is nonempty.  `pandas.read_csv`
guarantees this for every decoded upload: its default `na_values` turn
empty fields into `NaN`, i.e. into `none` cells of the embedding. -/
def cellsWf (t : Table) : Prop :=
  ∀ row ∈ t.rows, ∀ c ∈ row, c ≠ some ""

/-- The rational amount a row contributes to a `skipna` sum: its value
when valid, `0` when it is the `NaN` marker. -/
def amtQ (r : NRow) : ℚ :=
  match r.amount with
  | none => 0
  | some d => d.toRat

/-- The table of the spec's worked scenario: rows
`("2024-01-05","100","Food")`, `("2024-02-10","abc","Food")`,
`("2024-03-01","50","Rent")`. -/
def scenarioTable : Table :=
  { cols := ["date", "amt", "cat"]
    rows := [[some "2024-01-05", some "100", some "Food"],
             [some "2024-02-10", some "abc", some "Food"],
             [some "2024-03-01", some "50", some "Rent"]] }

/-- The scenario's pipeline run: date range `2024-01-01..2024-03-31`,
categories `Food` and `Rent`. -/
def scenarioRun : Except PipeErr Summary :=
  pipeline scenarioTable "date" "amt" "cat" [⟨2024, 1, 1⟩, ⟨2024, 3, 31⟩]
    ["Food", "Rent"]

/- ------------------------------------------------------------------ -/
/- Theorems.                                                          -/
/- ------------------------------------------------------------------ -/

theorem dle_refl (a : Date) : dle a a = true := by
  simp [dle]

theorem dle_total (a b : Date) : dle a b = true ∨ dle b a = true := by
  simp [dle]; omega

theorem dle_trans {a b c : Date} (h1 : dle a b = true) (h2 : dle b c = true) :
    dle a c = true := by
  simp [dle] at h1 h2 ⊢; omega

theorem dmin_le_left (a b : Date) : dle (dmin a b) a = true := by
  unfold dmin
  by_cases h : dle a b = true
  · simp [h, dle_refl]
  · rcases dle_total a b with h1 | h1
    · exact absurd h1 h
    · simp [h, h1]

theorem dmin_le_right (a b : Date) : dle (dmin a b) b = true := by
  unfold dmin
  by_cases h : dle a b = true
  · simp [h]
  · simp [h, dle_refl]

theorem dmax_ge_left (a b : Date) : dle a (dmax a b) = true := by
  unfold dmax
  by_cases h : dle a b = true
  · simp [h]
  · simp [h, dle_refl]

theorem dmax_ge_right (a b : Date) : dle b (dmax a b) = true := by
  unfold dmax
  by_cases h : dle a b = true
  · simp [h, dle_refl]
  · rcases dle_total a b with h1 | h1
    · exact absurd h1 h
    · simp [h, h1]

theorem foldl_dmin_mem (ds : List Date) (d : Date) : ds.foldl dmin d ∈ d :: ds := by
  induction ds generalizing d with
  | nil => simp
  | cons x xs ih =>
    have h := ih (dmin d x)
    have hdm : dmin d x = d ∨ dmin d x = x := by
      unfold dmin; by_cases h : dle d x = true <;> simp [h]
    rcases List.mem_cons.1 h with h1 | h1
    · rw [List.foldl_cons, h1]
      rcases hdm with h2 | h2 <;> rw [h2] <;> simp
    · rw [List.foldl_cons]
      exact List.mem_cons_of_mem _ (List.mem_cons_of_mem _ h1)

theorem foldl_dmin_le (ds : List Date) (d : Date) :
    ∀ y ∈ d :: ds, dle (ds.foldl dmin d) y = true := by
  induction ds generalizing d with
  | nil => intro y hy; simp at hy; subst hy; exact dle_refl _
  | cons x xs ih =>
    intro y hy
    have hfold : dle ((x :: xs).foldl dmin d) (dmin d x) = true :=
      ih (dmin d x) (dmin d x) (List.mem_cons_self _ _)
    rcases List.mem_cons.1 hy with h1 | h1
    · subst h1
      exact dle_trans hfold (dmin_le_left _ _)
    · rcases List.mem_cons.1 h1 with h2 | h2
      · subst h2
        exact dle_trans hfold (dmin_le_right _ _)
      · exact ih (dmin d x) y (List.mem_cons_of_mem _ h2)

theorem foldl_dmax_mem (ds : List Date) (d : Date) : ds.foldl dmax d ∈ d :: ds := by
  induction ds generalizing d with
  | nil => simp
  | cons x xs ih =>
    have h := ih (dmax d x)
    have hdm : dmax d x = d ∨ dmax d x = x := by
      unfold dmax; by_cases h : dle d x = true <;> simp [h]
    rcases List.mem_cons.1 h with h1 | h1
    · rw [List.foldl_cons, h1]
      rcases hdm with h2 | h2 <;> rw [h2] <;> simp
    · rw [List.foldl_cons]
      exact List.mem_cons_of_mem _ (List.mem_cons_of_mem _ h1)

theorem foldl_dmax_ge (ds : List Date) (d : Date) :
    ∀ y ∈ d :: ds, dle y (ds.foldl dmax d) = true := by
  induction ds generalizing d with
  | nil => intro y hy; simp at hy; subst hy; exact dle_refl _
  | cons x xs ih =>
    intro y hy
    have hfold : dle (dmax d x) ((x :: xs).foldl dmax d) = true :=
      ih (dmax d x) (dmax d x) (List.mem_cons_self _ _)
    rcases List.mem_cons.1 hy with h1 | h1
    · subst h1
      exact dle_trans (dmax_ge_left _ _) hfold
    · rcases List.mem_cons.1 h1 with h2 | h2
      · subst h2
        exact dle_trans (dmax_ge_right _ _) hfold
      · exact ih (dmax d x) y (List.mem_cons_of_mem _ h2)

theorem splitSep_ne_nil (c : Char) (l : List Char) : splitSep c l ≠ [] := by
  induction l with
  | nil => simp [splitSep]
  | cons a rest ih =>
    by_cases h : a = c
    · simp [splitSep, h]
    · rcases hsp : splitSep c rest with _ | ⟨g, gs⟩
      · exact absurd hsp ih
      · simp [splitSep, h, hsp]

theorem splitSep_cons_of_ne {a c : Char} (h : a ≠ c) (t : List Char) :
    splitSep c (a :: t) = List.modifyHead (fun g => a :: g) (splitSep c t) := by
  rcases hsp : splitSep c t with _ | ⟨g, gs⟩
  · exact absurd hsp (splitSep_ne_nil c t)
  · simp [splitSep, h, hsp]

theorem splitSep_cons_self (c : Char) (t : List Char) :
    splitSep c (c :: t) = [] :: splitSep c t := by
  simp [splitSep]

theorem splitSep_append {c : Char} {x : List Char} (hx : c ∉ x) (m : List Char) :
    splitSep c (x ++ m) = List.modifyHead (fun g => x ++ g) (splitSep c m) := by
  induction x with
  | nil =>
    rcases hsp : splitSep c m with _ | ⟨g, gs⟩
    · exact absurd hsp (splitSep_ne_nil c m)
    · simp [List.modifyHead, hsp]
  | cons a as ih =>
    have ha : a ≠ c := fun h => hx (by simp [h])
    have has : c ∉ as := fun h => hx (List.mem_cons_of_mem _ h)
    rw [List.cons_append, splitSep_cons_of_ne ha, ih has,
      List.modifyHead_modifyHead]
    rfl

theorem splitSep_joinSep {c : Char} :
    ∀ {ls : List (List Char)}, ls ≠ [] → (∀ l ∈ ls, c ∉ l) →
      splitSep c (joinSep c ls) = ls := by
  intro ls
  induction ls with
  | nil => intro h; exact absurd rfl h
  | cons x xs ih =>
    intro _ h2
    have hx : c ∉ x := h2 x (List.mem_cons_self _ _)
    cases xs with
    | nil =>
      show splitSep c (joinSep c [x]) = [x]
      have : joinSep c [x] = x := rfl
      rw [this, ← List.append_nil x, splitSep_append hx]
      simp [splitSep, List.modifyHead]
    | cons y ys =>
      have : joinSep c (x :: y :: ys) = x ++ c :: joinSep c (y :: ys) := rfl
      rw [this, splitSep_append hx, splitSep_cons_self,
        ih (by simp) (fun l hl => h2 l (List.mem_cons_of_mem _ hl))]
      simp [List.modifyHead]

theorem mem_joinSep {c : Char} {x : Char} :
    ∀ {ls : List (List Char)}, x ∈ joinSep c ls →
      x = c ∨ ∃ l ∈ ls, x ∈ l := by
  intro ls
  induction ls with
  | nil => intro h; simp [joinSep] at h
  | cons a as ih =>
    intro h
    cases as with
    | nil =>
      right
      exact ⟨a, List.mem_cons_self _ _, h⟩
    | cons b bs =>
      have : joinSep c (a :: b :: bs) = a ++ c :: joinSep c (b :: bs) := rfl
      rw [this] at h
      rcases List.mem_append.1 h with h1 | h1
      · right; exact ⟨a, List.mem_cons_self _ _, h1⟩
      · rcases List.mem_cons.1 h1 with h2 | h2
        · left; exact h2
        · rcases ih h2 with h3 | ⟨l, hl, hxl⟩
          · left; exact h3
          · right; exact ⟨l, List.mem_cons_of_mem _ hl, hxl⟩

theorem pow_sub_div {s t : Nat} (hst : s ≤ t) (x : ℚ) :
    x * 10 ^ (t - s) / 10 ^ t = x / 10 ^ s := by
  have hp : (10 : ℚ) ^ (t - s) * 10 ^ s = 10 ^ t := pow_sub_mul_pow 10 hst
  rw [div_eq_div_iff (by positivity) (by positivity), mul_assoc, hp]

theorem Dec.toRat_add (a b : Dec) : (Dec.add a b).toRat = a.toRat + b.toRat := by
  unfold Dec.add Dec.toRat
  simp only
  push_cast
  rw [add_div, pow_sub_div (le_max_left a.shift b.shift),
    pow_sub_div (le_max_right a.shift b.shift)]

theorem foldl_add_toRat (l : List Dec) :
    ∀ init : Dec, (l.foldl Dec.add init).toRat = init.toRat + (l.map Dec.toRat).sum := by
  induction l with
  | nil => intro init; simp
  | cons a as ih =>
    intro init
    rw [List.foldl_cons, ih (Dec.add init a), Dec.toRat_add]
    simp [add_assoc]

theorem sumDec_toRat (l : List Dec) : (sumDec l).toRat = (l.map Dec.toRat).sum := by
  rw [sumDec, foldl_add_toRat]
  simp [Dec.toRat]

theorem sum_map_filter_add (p : NRow → Bool) (f : NRow → ℚ) (rows : List NRow) :
    ((rows.filter p).map f).sum + ((rows.filter (fun r => !(p r))).map f).sum =
      (rows.map f).sum := by
  induction rows with
  | nil => simp
  | cons r rs ih =>
    cases hp : p r <;> simp [List.filter_cons, hp] <;> rw [← ih] <;> ring

theorem sum_over_keys (key : NRow → String) (f : NRow → ℚ) :
    ∀ (keys : List String) (rows : List NRow), keys.Nodup →
      (∀ r ∈ rows, key r ∈ keys) →
      (keys.map
        (fun k => ((rows.filter (fun r => decide (key r = k))).map f).sum)).sum =
        (rows.map f).sum := by
  intro keys
  induction keys with
  | nil =>
    intro rows _ hcov
    have : rows = [] := List.eq_nil_iff_forall_not_mem.2 (fun r hr => by
      have := hcov r hr; simp at this)
    subst this; simp
  | cons k ks ih =>
    intro rows hnd hcov
    have hk : k ∉ ks := (List.nodup_cons.1 hnd).1
    have hnd' : ks.Nodup := (List.nodup_cons.1 hnd).2
    have hstep :
        (ks.map
          (fun k' => ((rows.filter (fun r => decide (key r = k'))).map f).sum)).sum =
        (ks.map
          (fun k' =>
            (((rows.filter (fun r => !(decide (key r = k)))).filter
              (fun r => decide (key r = k'))).map f).sum)).sum := by
      refine congrArg List.sum (List.map_congr_left ?_)
      intro k' hk'
      have hne : k' ≠ k := fun h => hk (h ▸ hk')
      rw [List.filter_filter]
      refine congrArg List.sum (congrArg (List.map f) (List.filter_congr ?_))
      intro r _
      by_cases h : key r = k'
      · simp [h, hne]
      · simp [h]
    rw [List.map_cons, List.sum_cons, hstep,
      ih (rows.filter (fun r => !(decide (key r = k)))) hnd' ?_,
      sum_map_filter_add (fun r => decide (key r = k)) f rows]
    intro r hr
    have hmem := List.mem_filter.1 hr
    have hcovr := hcov r hmem.1
    have : key r ≠ k := by
      have := hmem.2; simp at this; exact this
    rcases List.mem_cons.1 hcovr with h | h
    · exact absurd h this
    · exact h

theorem validAmts_toRat_sum (rows : List NRow) :
    ((validAmts rows).map Dec.toRat).sum = (rows.map amtQ).sum := by
  induction rows with
  | nil => simp [validAmts]
  | cons r rs ih =>
    rcases ha : r.amount with _ | d
    · simp only [validAmts, List.filterMap_cons, ha, List.map_cons,
        List.sum_cons]
      rw [validAmts] at ih
      rw [ih]
      simp [amtQ, ha]
    · simp only [validAmts, List.filterMap_cons, ha, List.map_cons,
        List.sum_cons]
      rw [validAmts] at ih
      rw [ih]
      simp [amtQ, ha]

/-- C2 (confirmed): for every sequence of normalized rows and every
filter specification, the filter output is a subsequence of its input
(original order preserved), and a row is kept if and only if its date is
valid, lies between `start` and `stop` inclusive, and its category is a
member of the allowed category list. -/
theorem filterer_subsequence_and_predicate (sp : FilterSpec) (rows : List NRow) :
    (filterRows sp rows).Sublist rows ∧
    ∀ r, r ∈ filterRows sp rows ↔
      r ∈ rows ∧
      (∃ d, r.date = some d ∧ dle sp.start d = true ∧ dle d sp.stop = true) ∧
      r.category ∈ sp.cats := by
  constructor
  · exact (List.filter_sublist _).trans (List.filter_sublist _)
  · intro r
    rcases hd : r.date with _ | d
    · simp [filterRows, List.mem_filter, dateKeep, catKeep, hd]
    · simp only [filterRows, List.mem_filter, dateKeep, catKeep, hd,
        Bool.and_eq_true, decide_eq_true_eq, Option.some.injEq]
      constructor
      · rintro ⟨⟨hr, hdl⟩, hc⟩
        exact ⟨hr, ⟨d, rfl, hdl.1, hdl.2⟩, hc⟩
      · rintro ⟨hr, ⟨d', hd', h1, h2⟩, hc⟩
        cases hd'
        exact ⟨⟨hr, h1, h2⟩, hc⟩

/-- C3 (confirmed): normalization output has exactly as many rows as the
input table, and the row at every position carries the original record
of that position — unparseable cells become invalid markers in place,
no row is dropped. -/
theorem normalize_preserves_rows (t : Table) (dc ac cc : String) :
    (normalize t dc ac cc).length = t.rows.length ∧
    ∀ i : Nat, ((normalize t dc ac cc)[i]?).map NRow.orig = t.rows[i]? := by
  constructor
  · exact List.length_map _ _
  · intro i
    rw [normalize, List.getElem?_map, Option.map_map]
    have hcomp : NRow.orig ∘ normRow t.cols dc ac cc = id := rfl
    rw [hcomp, Option.map_id, id]

/-- C10 (confirmed): on a non-empty filtered row set whose amounts are
all invalid, the total is exactly `0`, the average and the maximum are
the not-a-number marker `none`, and the count is still the number of
rows. -/
theorem all_invalid_amounts_kpis (rows : List NRow) (hne : rows ≠ [])
    (hall : ∀ r ∈ rows, r.amount = none) :
    totalAmt rows = Dec.ofInt 0 ∧ (totalAmt rows).toRat = 0 ∧
    avgAmt rows = none ∧ maxAmt rows = none ∧ txCount rows = rows.length := by
  have hv : validAmts rows = [] := by
    rw [validAmts]
    exact List.filterMap_eq_nil_iff.2 hall
  refine ⟨?_, ?_, ?_, ?_, rfl⟩
  · rw [totalAmt, hv]; rfl
  · rw [totalAmt, hv]; simp [sumDec, Dec.toRat]
  · simp [avgAmt, hv]
  · simp [maxAmt, hv]

/-- All-invalid KPI theorem at a concrete one-row input. -/
theorem all_invalid_amounts_kpis_witness :
    ([⟨[], none, none, "Uncategorized"⟩] : List NRow) ≠ [] ∧
    (∀ r ∈ ([⟨[], none, none, "Uncategorized"⟩] : List NRow), r.amount = none) ∧
    (totalAmt [⟨[], none, none, "Uncategorized"⟩] = Dec.ofInt 0 ∧
     (totalAmt [⟨[], none, none, "Uncategorized"⟩]).toRat = 0 ∧
     avgAmt [⟨[], none, none, "Uncategorized"⟩] = none ∧
     maxAmt [⟨[], none, none, "Uncategorized"⟩] = none ∧
     txCount [⟨[], none, none, "Uncategorized"⟩] =
       ([⟨[], none, none, "Uncategorized"⟩] : List NRow).length) :=
  ⟨by decide, by decide,
    all_invalid_amounts_kpis _ (by decide) (by decide)⟩

/-- C8 (confirmed): when the table is non-empty (so the session reaches
the range widget) and the selected date range does not have exactly two
endpoints, the pipeline halts with the invalid-date-range condition; no
downstream computation (filtering, KPIs, groupings, export) occurs. -/
theorem invalid_date_range_halts (t : Table) (dc ac cc : String)
    (dr : List Date) (cats : List String)
    (hne : t.isEmptyTable = false) (hlen : dr.length ≠ 2) :
    pipeline t dc ac cc dr cats = .error .invalidDateRange := by
  unfold pipeline
  rw [hne]
  simp only [Bool.false_eq_true, if_false]
  rcases dr with _ | ⟨a, _ | ⟨b, _ | ⟨c, rest⟩⟩⟩
  · rfl
  · rfl
  · exact absurd rfl hlen
  · rfl

/-- Invalid-range theorem at a concrete one-endpoint input. -/
theorem invalid_date_range_halts_witness :
    (⟨["c"], [[some "x"]]⟩ : Table).isEmptyTable = false ∧
    ([⟨2024, 1, 1⟩] : List Date).length ≠ 2 ∧
    pipeline ⟨["c"], [[some "x"]]⟩ "c" "c" "c" [⟨2024, 1, 1⟩] [] =
      .error .invalidDateRange :=
  ⟨by decide, by decide,
    invalid_date_range_halts _ "c" "c" "c" _ [] (by decide) (by decide)⟩

/-- C6 (confirmed): the decoder tries the candidate parsers in order —
default encoding, then UTF-8-with-signature, then Latin-1 — returns the
first success, and fails exactly when every attempt fails. -/
theorem safe_read_first_success (p1 p2 p3 : List Nat → Option Table) (b : List Nat) :
    (safe_read p1 p2 p3 b = none ↔ p1 b = none ∧ p2 b = none ∧ p3 b = none) ∧
    (∀ t, p1 b = some t → safe_read p1 p2 p3 b = some t) ∧
    (∀ t, p1 b = none → p2 b = some t → safe_read p1 p2 p3 b = some t) ∧
    (∀ t, p1 b = none → p2 b = none → p3 b = some t →
      safe_read p1 p2 p3 b = some t) := by
  rcases h1 : p1 b with _ | t1 <;> rcases h2 : p2 b with _ | t2 <;>
    simp [safe_read, h1, h2]

/-- Decode-order theorem at concrete parsers: the first failing, the
second succeeding. -/
theorem safe_read_first_success_witness :
    safe_read (fun _ => none) (fun _ => some ⟨[], []⟩) (fun _ => none) [] =
      some ⟨[], []⟩ :=
  (safe_read_first_success (fun _ => none) (fun _ => some ⟨[], []⟩)
    (fun _ => none) []).2.2.1 ⟨[], []⟩ rfl rfl

theorem getCell_some_mem {cols : List String} {name : String}
    {row : List (Option String)} {s : String}
    (h : getCell cols name row = some s) : some s ∈ row := by
  unfold getCell at h
  rcases hidx : cols.indexOf? name with _ | i
  · rw [hidx] at h; exact absurd h (by simp)
  · simp only [hidx] at h
    rw [List.getD_eq_getElem?_getD] at h
    rcases hg : row[i]? with _ | c
    · rw [hg] at h; exact absurd h (by simp)
    · rw [hg] at h
      simp only [Option.getD_some] at h
      subst h
      exact List.getElem?_mem hg

/-- C5 (confirmed): over a table whose textual cells are nonempty (as
`read_csv` guarantees: empty fields decode to the absent marker), every
normalized row's category is nonempty text; with the `"(none)"` sentinel
it is always the literal `"Uncategorized"`, and an absent source cell is
substituted with `"Uncategorized"`. -/
theorem category_never_empty (t : Table) (dc ac cc : String) (hwf : cellsWf t) :
    ∀ r ∈ normalize t dc ac cc,
      r.category ≠ "" ∧
      (cc = "(none)" → r.category = "Uncategorized") ∧
      (getCell t.cols cc r.orig = none → r.category = "Uncategorized") := by
  intro r hr
  rcases List.mem_map.1 hr with ⟨row, hrow, rfl⟩
  refine ⟨?_, ?_, ?_⟩
  · by_cases hcc : cc = "(none)"
    · simp [normRow, hcc]
    · simp only [normRow, if_neg hcc]
      rcases hg : getCell t.cols cc row with _ | s
      · simp
      · simp only [Option.getD_some]
        intro h
        exact hwf row hrow (some s) (getCell_some_mem hg) (by rw [h])
  · intro h; simp [normRow, h]
  · intro h
    by_cases hcc : cc = "(none)"
    · simp [normRow, hcc]
    · simp only [normRow] at h ⊢
      rw [if_neg hcc, h]
      rfl

/-- Category invariant at a concrete two-row table (one present cell,
one absent cell). -/
theorem category_never_empty_witness :
    cellsWf ⟨["c"], [[some "x"], [none]]⟩ ∧
    ∀ r ∈ normalize ⟨["c"], [[some "x"], [none]]⟩ "c" "c" "c",
      r.category ≠ "" ∧
      ("c" = "(none)" → r.category = "Uncategorized") ∧
      (getCell (⟨["c"], [[some "x"], [none]]⟩ : Table).cols "c" r.orig = none →
        r.category = "Uncategorized") :=
  ⟨by unfold cellsWf; decide,
    category_never_empty ⟨["c"], [[some "x"], [none]]⟩ "c" "c" "c"
      (by unfold cellsWf; decide)⟩

/-- C9 (confirmed): the default interval offered to the range picker is
January 1st of the current year through today when the table has no
valid date, and otherwise the minimum through the maximum valid date. -/
theorem default_range_spec (dates : List (Option Date)) (today : Date) :
    (dates.filterMap id = [] →
      defaultRange dates today = (⟨today.year, 1, 1⟩, today)) ∧
    (dates.filterMap id ≠ [] →
      ((defaultRange dates today).1 ∈ dates.filterMap id ∧
       (∀ d ∈ dates.filterMap id, dle (defaultRange dates today).1 d = true) ∧
       (defaultRange dates today).2 ∈ dates.filterMap id ∧
       (∀ d ∈ dates.filterMap id, dle d (defaultRange dates today).2 = true))) := by
  rcases hv : dates.filterMap id with _ | ⟨v, vs⟩
  · refine ⟨fun _ => ?_, fun h => absurd rfl h⟩
    rw [defaultRange, hv]
  · refine ⟨fun h => absurd h (by simp), fun _ => ?_⟩
    have hdr : defaultRange dates today = (vs.foldl dmin v, vs.foldl dmax v) := by
      rw [defaultRange, hv]
    rw [hdr]
    exact ⟨foldl_dmin_mem vs v, fun d hd => foldl_dmin_le vs v d hd,
      foldl_dmax_mem vs v, fun d hd => foldl_dmax_ge vs v d hd⟩

/-- Default-range theorem at a concrete input with one valid date. -/
theorem default_range_spec_witness :
    ([none, some ⟨2024, 5, 1⟩] : List (Option Date)).filterMap id ≠ [] ∧
    ((defaultRange [none, some ⟨2024, 5, 1⟩] ⟨2026, 10, 12⟩).1 ∈
        ([none, some ⟨2024, 5, 1⟩] : List (Option Date)).filterMap id ∧
     (∀ d ∈ ([none, some ⟨2024, 5, 1⟩] : List (Option Date)).filterMap id,
        dle (defaultRange [none, some ⟨2024, 5, 1⟩] ⟨2026, 10, 12⟩).1 d = true) ∧
     (defaultRange [none, some ⟨2024, 5, 1⟩] ⟨2026, 10, 12⟩).2 ∈
        ([none, some ⟨2024, 5, 1⟩] : List (Option Date)).filterMap id ∧
     (∀ d ∈ ([none, some ⟨2024, 5, 1⟩] : List (Option Date)).filterMap id,
        dle d (defaultRange [none, some ⟨2024, 5, 1⟩] ⟨2026, 10, 12⟩).2 = true)) :=
  ⟨by decide,
    (default_range_spec [none, some ⟨2024, 5, 1⟩] ⟨2026, 10, 12⟩).2 (by decide)⟩

theorem mem_groupKeys (key : NRow → String) (rows : List NRow) {r : NRow}
    (hr : r ∈ rows) : key r ∈ groupKeys key rows := by
  rw [groupKeys]
  exact ((List.perm_insertionSort strProp _).mem_iff).2
    (List.mem_dedup.2 (List.mem_map_of_mem key hr))

theorem nodup_groupKeys (key : NRow → String) (rows : List NRow) :
    (groupKeys key rows).Nodup := by
  rw [groupKeys]
  exact ((List.perm_insertionSort strProp _).nodup_iff).2 (List.nodup_dedup _)

theorem groupSum_toRat_sum (key : NRow → String) (rows : List NRow) :
    ((groupSum key rows).map (fun kv => kv.2.toRat)).sum =
      (rows.map amtQ).sum := by
  rw [groupSum, List.map_map]
  have hstep :
      ((groupKeys key rows).map
        ((fun kv : String × Dec => kv.2.toRat) ∘
          (fun k => (k, sumDec (validAmts
            (rows.filter (fun r => decide (key r = k)))))))).sum =
      ((groupKeys key rows).map
        (fun k => ((rows.filter (fun r => decide (key r = k))).map amtQ).sum)).sum := by
    refine congrArg List.sum (List.map_congr_left ?_)
    intro k _
    simp only [Function.comp]
    rw [sumDec_toRat, validAmts_toRat_sum]
  rw [hstep]
  exact sum_over_keys key amtQ (groupKeys key rows) rows
    (nodup_groupKeys key rows) (fun r hr => mem_groupKeys key rows hr)

/-- C4 (confirmed): for every filtered row set, the total KPI equals the
sum of the values of the per-category grouping — the scalar is
consistent with the grouped breakdown. -/
theorem total_consistent_with_category_grouping (rows : List NRow) :
    (totalAmt rows).toRat = ((catSum rows).map (fun kv => kv.2.toRat)).sum := by
  rw [totalAmt, sumDec_toRat, validAmts_toRat_sum, catSum,
    groupSum_toRat_sum (fun r => r.category) rows]

theorem csv_roundtrip (g : List (List String)) (hg : g ≠ [])
    (hrow : ∀ line ∈ g, line ≠ [])
    (hnc : ∀ line ∈ g, ∀ s ∈ line, ',' ∉ s.data ∧ '\n' ∉ s.data) :
    csvParse (csvRender g) = g := by
  rw [csvRender, csvParse]
  have hdata :
      (String.mk (joinSep '\n'
        (g.map (fun line => joinSep ',' (line.map String.data))))).data =
      joinSep '\n' (g.map (fun line => joinSep ',' (line.map String.data))) := rfl
  rw [hdata]
  have hL1 : g.map (fun line => joinSep ',' (line.map String.data)) ≠ [] := by
    intro h
    exact hg (List.map_eq_nil_iff.1 h)
  have hL2 : ∀ l ∈ g.map (fun line => joinSep ',' (line.map String.data)),
      '\n' ∉ l := by
    intro l hl hmem
    rcases List.mem_map.1 hl with ⟨line, hline, rfl⟩
    rcases mem_joinSep hmem with h | ⟨cl, hcl, hcin⟩
    · exact absurd h (by decide)
    · rcases List.mem_map.1 hcl with ⟨s, hs, rfl⟩
      exact (hnc line hline s hs).2 hcin
  rw [splitSep_joinSep hL1 hL2, List.map_map]
  have hline : ∀ line ∈ g,
      ((fun l => (splitSep ',' l).map String.mk) ∘
        (fun line => joinSep ',' (line.map String.data))) line = line := by
    intro line hlm
    simp only [Function.comp]
    have h1 : line.map String.data ≠ [] := by
      intro h
      exact hrow line hlm (List.map_eq_nil_iff.1 h)
    have h2 : ∀ cl ∈ line.map String.data, ',' ∉ cl := by
      intro cl hcl
      rcases List.mem_map.1 hcl with ⟨s, hs, rfl⟩
      exact (hnc line hlm s hs).1
    rw [splitSep_joinSep h1 h2, List.map_map]
    have : ∀ s ∈ line, (String.mk ∘ String.data) s = s := by
      intro s _
      exact String.ext rfl
    rw [List.map_congr_left this, List.map_id']
  rw [List.map_congr_left hline, List.map_id']

/-- C7 counterexample: on a one-column, one-row input the export header
is the original column plus FOUR derived columns — line 193 of the
source adds `year_month` to the exported frame — so the export does not
consist of the original columns plus exactly the three derived columns. -/
theorem export_has_four_derived_columns :
    (exportGrid ["colA"] [⟨[some "v"], none, none, "Uncategorized"⟩]).head? ≠
      some ["colA", "_date", "_amount", "_category"] ∧
    (exportGrid ["colA"] [⟨[some "v"], none, none, "Uncategorized"⟩]).head? =
      some ["colA", "_date", "_amount", "_category", "year_month"] := by
  constructor
  · decide
  · decide

/-- C7 (corrected): the export serialization has a header of all
original columns plus exactly the four derived columns `_date`,
`_amount`, `_category`, `year_month` (and no others), and re-parsing the
rendered delimited text reproduces the exported rows and columns exactly
(fields assumed free of the delimiters, as quoting is not modelled). -/
theorem export_columns_and_roundtrip (cols : List String) (rows : List NRow)
    (hnc : ∀ line ∈ exportGrid cols rows, ∀ s ∈ line,
      ',' ∉ s.data ∧ '\n' ∉ s.data) :
    (exportGrid cols rows).head? =
      some (cols ++ ["_date", "_amount", "_category", "year_month"]) ∧
    csvParse (csvRender (exportGrid cols rows)) = exportGrid cols rows := by
  refine ⟨rfl, csv_roundtrip _ (by simp [exportGrid]) ?_ hnc⟩
  intro line hline
  rw [exportGrid] at hline
  rcases List.mem_cons.1 hline with h | h
  · subst h
    simp
  · rcases List.mem_map.1 h with ⟨r, _, rfl⟩
    simp

/-- Export theorem at a concrete one-column, one-row input with a valid
date and amount. -/
theorem export_columns_and_roundtrip_witness :
    (∀ line ∈ exportGrid ["colB"]
        [⟨[some "w"], some ⟨2024, 1, 5⟩, some ⟨100, 0⟩, "Food"⟩],
      ∀ s ∈ line, ',' ∉ s.data ∧ '\n' ∉ s.data) ∧
    ((exportGrid ["colB"]
        [⟨[some "w"], some ⟨2024, 1, 5⟩, some ⟨100, 0⟩, "Food"⟩]).head? =
      some (["colB"] ++ ["_date", "_amount", "_category", "year_month"]) ∧
     csvParse (csvRender (exportGrid ["colB"]
        [⟨[some "w"], some ⟨2024, 1, 5⟩, some ⟨100, 0⟩, "Food"⟩])) =
       exportGrid ["colB"]
        [⟨[some "w"], some ⟨2024, 1, 5⟩, some ⟨100, 0⟩, "Food"⟩]) :=
  ⟨by decide,
    export_columns_and_roundtrip ["colB"]
      [⟨[some "w"], some ⟨2024, 1, 5⟩, some ⟨100, 0⟩, "Food"⟩] (by decide)⟩

/-- C1 counterexample: on the spec's worked scenario the monthly
grouping is not `{2024-01: 100, 2024-03: 50}` — the `"abc"` row has a
valid `2024-02` date, so `2024-02` is also a key (with the all-invalid
group sum `0`). -/
theorem scenario_monthly_has_extra_key :
    scenarioRun.toOption.map (fun s => s.trend) ≠
      some [("2024-01", Dec.ofInt 100), ("2024-03", Dec.ofInt 50)] ∧
    scenarioRun.toOption.map (fun s => s.trend.map Prod.fst) =
      some ["2024-01", "2024-02", "2024-03"] := by
  constructor
  · decide
  · decide

/-- C1 (corrected): the worked scenario produces filtered count `3`,
total `150` (the `"abc"` row excluded from the total but included in
the count), category grouping `{Food: 100, Rent: 50}`, and monthly
grouping `{2024-01: 100, 2024-02: 0, 2024-03: 50}` with no other keys. -/
theorem scenario_outputs :
    scenarioRun.toOption.map (fun s => (s.count, s.total, s.cats, s.trend)) =
      some (3, Dec.ofInt 150,
        [("Food", Dec.ofInt 100), ("Rent", Dec.ofInt 50)],
        [("2024-01", Dec.ofInt 100), ("2024-02", Dec.ofInt 0),
         ("2024-03", Dec.ofInt 50)]) := by
  decide

end App2
